import Mathlib

/-!
Verification of the eventsourcing repository (Go) against its specification.

Shallow embedding conventions:
* Go `uint64` versions are modelled as `Nat` (`Version`), no overflow is
  exercised by the claims.
* Go `[]byte` and `string` payload encodings are modelled as `String`
  (`Bytes`); `map[string]interface{}` metadata, which the embedded code only
  carries or passes through injected marshal functions, is modelled as an
  association list (`Meta`), with `Option` capturing Go nil maps/slices.
* `time.Time` instants, never inspected by the embedded code, are `Nat`.
* Fallible Go calls return `Except GoError`; a Go runtime panic is the
  distinguished error `GoError.panicked`.
* Stateful Go methods become explicit state passing: a method that mutates a
  receiver and returns an error becomes a function returning
  `Except GoError (newState, ...)`.
-/

namespace EvSrc

/-- Go `eventsourcing.Version` (uint64). -/
abbrev Version := Nat

/-- Go `[]byte` / `string` encoded payloads. -/
abbrev Bytes := String

/-- Go `map[string]interface{}` metadata, carried opaquely by the embedded code. -/
abbrev Meta := List (String × String)

/-- Go `time.Time`, an opaque instant. -/
abbrev GoTime := Nat

/-- The error values returned by the embedded code paths: the sentinel
errors of the eventsourcing package, validation errors, serialization
failures, and Go runtime panics. -/
inductive GoError where
  | noMoreEvents
  | noEvents
  | emptyID
  | unsavedEvents
  | mixedAggregate
  | concurrencyConflict
  | nonContiguousVersion
  | serializationFailure (msg : String)
  | panicked (msg : String)
  | other (msg : String)
deriving DecidableEq, Repr

/-- Go `eventsourcing.Event[T]` (source part_003, event.go): AggregateID,
Version, GlobalVersion, AggregateType, Timestamp, Data, Metadata. -/
structure Event (T : Type) where
  aggregateID : String
  version : Version
  globalVersion : Version
  aggregateType : String
  timestamp : GoTime
  data : T
  metadata : Option Meta
deriving DecidableEq, Repr

/-- Whether the versions of `es` are the consecutive integers
`v+1, v+2, ...` (no gaps, ascending). -/
def contiguousFrom {T : Type} : Version → List (Event T) → Bool
  | _, [] => true
  | v, e :: rest => (e.version == v + 1) && contiguousFrom (v + 1) rest

/-- Modelled from the spec: `eventstore.ValidateEvents` lives in the
eventstore helper package, which is not among the source files; only its
call sites are. Spec section 4.2: all events must share one AggregateID and
one AggregateType (else MixedAggregate), the first Version must equal the
current persisted Version plus one (else ConcurrencyConflict), and the
Versions must be contiguous ascending integers with no gaps (else a
malformed-batch NonContiguousVersion error). -/
def validateEvents {T : Type} (aggregateID : String) (currentVersion : Version)
    (events : List (Event T)) : Except GoError Unit :=
  match events with
  | [] => .ok ()
  | e0 :: rest =>
    if !((e0 :: rest).all fun e =>
        e.aggregateID == aggregateID && e.aggregateType == e0.aggregateType) then
      .error .mixedAggregate
    else if e0.version != currentVersion + 1 then
      .error .concurrencyConflict
    else if !contiguousFrom e0.version rest then
      .error .nonContiguousVersion
    else
      .ok ()

/-- Modelled from the spec: `eventstore.ValidateEventsNoVersionCheck` is the
same validation without the comparison against the stored current version
(spec section 4.2 notes the authoritative version check is delegated to the
backend with expected-revision semantics): one AggregateID and one
AggregateType, contiguous ascending Versions within the batch. -/
def validateEventsNoVersionCheck {T : Type} (aggregateID : String)
    (events : List (Event T)) : Except GoError Unit :=
  match events with
  | [] => .ok ()
  | e0 :: rest =>
    if !((e0 :: rest).all fun e =>
        e.aggregateID == aggregateID && e.aggregateType == e0.aggregateType) then
      .error .mixedAggregate
    else if !contiguousFrom e0.version rest then
      .error .nonContiguousVersion
    else
      .ok ()

/-! ## The in-memory event store (source part_002, package memory) -/

/-- Go `memory.Memory[T]`: the per-aggregate buckets (a map with empty-list
default, modelled as a function) and the global order slice. The mutex only
serializes access and has no sequential effect. -/
structure MemoryState (T : Type) where
  aggregateEvents : String → List (Event T)
  eventsInOrder : List (Event T)

/-- Go `memory.Create[T]()`. -/
def emptyMemory (T : Type) : MemoryState T :=
  { aggregateEvents := fun _ => [], eventsInOrder := [] }

/-- Go `memory.aggregateKey`. -/
def aggregateKey (aggregateType aggregateID : String) : String :=
  aggregateType ++ "_" ++ aggregateID

/-- The body of the loop in `Memory.Save`: each event gets
`GlobalVersion = len(eventsInOrder) + 1` at the moment it is appended, so
the i-th event of the batch gets `n + i + 1` where `n` is the length of
`eventsInOrder` when the loop starts. The same stamped events are appended
to the bucket, to the global slice, and written back to the callers slice. -/
def stampGlobal {T : Type} : Nat → List (Event T) → List (Event T)
  | _, [] => []
  | n, e :: rest => { e with globalVersion := n + 1 } :: stampGlobal (n + 1) rest

/-- Go `Memory.Save` (part_002 lines 46-87): empty batch is a no-op; the bucket
key and current version come from the first event; validation
(`eventstore.ValidateEvents`) runs before any mutation; on success the
stamped events are appended to the bucket and to `eventsInOrder`, and the
stamped batch (with GlobalVersion overwritten) is visible to the caller. -/
def memorySave {T : Type} (st : MemoryState T) (events : List (Event T)) :
    Except GoError (MemoryState T × List (Event T)) :=
  match events with
  | [] => .ok (st, [])
  | e0 :: rest =>
    let bucketName := aggregateKey e0.aggregateType e0.aggregateID
    let evBucket := st.aggregateEvents bucketName
    let currentVersion : Version :=
      match evBucket.getLast? with
      | none => 0
      | some lastEvent => lastEvent.version
    match validateEvents e0.aggregateID currentVersion (e0 :: rest) with
    | .error err => .error err
    | .ok _ =>
      let stamped := stampGlobal st.eventsInOrder.length (e0 :: rest)
      .ok ({ aggregateEvents := fun k =>
               if k = bucketName then evBucket ++ stamped else st.aggregateEvents k,
             eventsInOrder := st.eventsInOrder ++ stamped },
           stamped)

/-- The memory-store iterator: an event slice and a cursor position. -/
structure MemIterator (T : Type) where
  events : List (Event T)
  position : Nat
deriving DecidableEq, Repr

/-- Go `iterator.Next` of the memory store (part_002 lines 23-30): past the end
it returns `ErrNoMoreEvents` (cursor unchanged), otherwise the event under
the cursor, advancing the cursor. -/
def memNext {T : Type} (i : MemIterator T) :
    Except GoError (Event T) × MemIterator T :=
  if h : i.events.length ≤ i.position then
    (.error .noMoreEvents, i)
  else
    (.ok (i.events.get ⟨i.position, by omega⟩), { i with position := i.position + 1 })

/-- Go `Memory.Get` (part_002 lines 90-105): filter the bucket of
`(aggregateType, id)` by `Version > afterVersion`; if nothing matched fail
with `ErrNoEvents`, otherwise return an iterator positioned at the start. -/
def memoryGet {T : Type} (st : MemoryState T) (id aggregateType : String)
    (afterVersion : Version) : Except GoError (MemIterator T) :=
  let events := (st.aggregateEvents (aggregateKey aggregateType id)).filter
      fun e => afterVersion < e.version
  if events.isEmpty then .error .noEvents
  else .ok { events := events, position := 0 }

/-- Apply a sequence of Save calls; a failed Save leaves the state unchanged
(in the source, validation precedes every mutation of the receiver). -/
def saveMany {T : Type} (st : MemoryState T) (batches : List (List (Event T))) :
    MemoryState T :=
  batches.foldl
    (fun s b => match memorySave s b with
                | .ok (s2, _) => s2
                | .error _ => s)
    st

/-- The results of `n` successive Next calls on a memory iterator. -/
def runNext {T : Type} : MemIterator T → Nat → List (Except GoError (Event T))
  | _, 0 => []
  | i, n + 1 => (memNext i).1 :: runNext (memNext i).2 n

/-- Reachability invariant: every bucket of the memory store holds versions
exactly 1..len in order. -/
def BucketsOK {T : Type} (st : MemoryState T) : Prop :=
  ∀ key, (st.aggregateEvents key).map (fun e => e.version)
           = List.range' 1 (st.aggregateEvents key).length

/-- Reachability invariant: the global slice holds global versions exactly
1..len in order. -/
def GlobalsOK {T : Type} (st : MemoryState T) : Prop :=
  st.eventsInOrder.map (fun e => e.globalVersion)
    = List.range' 1 st.eventsInOrder.length

/-! ## The serializer boundary and the esdb, bbolt and sql read/write paths
(sources: eventstore/esdb/esdb.go, eventstore/esdb/iterator.go and the
bbolt iterator in part_002) -/

/-- The boltEvent storage record of the bbolt backend, with the fields its
iterator.Next reads from it. -/
structure BoltEvent where
  aggregateID : String
  aggregateType : String
  version : Version
  globalVersion : Version
  reason : String
  timestamp : GoTime
  metadata : Option Meta
  data : Bytes
deriving DecidableEq, Repr

/-- The injected serializer boundary as the backends use it: the registry
lookup Type(aggregateType, reason) returning a fresh-payload factory when
registered, the injected Marshal/Unmarshal pair specialised to each Go
target type the backends pass to it, and the reflected payload type name
used by Event.Reason when the esdb Save encodes a payload of type T. -/
structure Serializer (T : Type) where
  typeLookup : String → String → Option (Unit → T)
  marshalData : T → Except GoError Bytes
  unmarshalInto : Bytes → T → Except GoError T
  marshalMeta : Meta → Except GoError Bytes
  unmarshalMeta : Bytes → Except GoError Meta
  unmarshalBolt : Bytes → Except GoError BoltEvent
  reasonOf : T → String

/-- esdb.EventData as built inside ESDB.Save. -/
structure EventData where
  jsonContent : Bool
  eventType : String
  data : Bytes
  metadata : Option Bytes
deriving DecidableEq, Repr

/-- The esdb write result; only the commit position is consumed by Save. -/
structure WriteResult where
  commitPosition : Nat
deriving DecidableEq, Repr

/-- esdb expected-revision stream options as set by Save. -/
inductive ExpectedRevision where
  | anyRev
  | noStream
  | revision (value : Nat)
deriving DecidableEq, Repr

/-- esdb stream naming: aggregateType ++ "-" ++ aggregateID. -/
def streamName (aggregateType aggregateID : String) : String :=
  aggregateType ++ "-" ++ aggregateID

/-- Go strings.Split with a one-character separator, on char lists:
splitting the empty list yields one empty part, a separator starts a new
part. -/
def splitOnChar (sep : Char) : List Char → List (List Char)
  | [] => [[]]
  | c :: rest =>
    if c = sep then [] :: splitOnChar sep rest
    else
      match splitOnChar sep rest with
      | [] => [[c]]
      | p :: ps => (c :: p) :: ps

/-- strings.Split(streamID, streamSeparator) with the one-character
separator "-". -/
def splitDash (s : String) : List String :=
  (splitOnChar '-' s.data).map fun l => { data := l }

/-- The metadata half of the Save encoding (esdb.go lines 62-67): a nil
metadata map stays nil, otherwise it is marshalled. -/
def metadataEncode {T : Type} (ser : Serializer T) :
    Option Meta → Except GoError (Option Bytes)
  | none => .ok none
  | some md => (ser.marshalMeta md).map Option.some

/-- The metadata half of the read path (iterator.go lines 50-55): nil user
metadata stays nil, otherwise it is unmarshalled. -/
def metadataDecode {T : Type} (ser : Serializer T) :
    Option Bytes → Except GoError (Option Meta)
  | none => .ok none
  | some bm => (ser.unmarshalMeta bm).map Option.some

/-- The per-event encoding of ESDB.Save (esdb.go lines 55-76): marshal the
data, marshal the metadata only when it is non-nil, set EventType to
event.Reason(). Any marshal error aborts the whole Save. -/
def encodeEvents {T : Type} (ser : Serializer T) (contentType : Bool) :
    List (Event T) → Except GoError (List EventData)
  | [] => .ok []
  | e :: rest =>
    match ser.marshalData e.data with
    | .error err => .error err
    | .ok d =>
      match metadataEncode ser e.metadata with
      | .error err => .error err
      | .ok m =>
        match encodeEvents ser contentType rest with
        | .error err => .error err
        | .ok eds =>
          .ok ({ jsonContent := contentType, eventType := ser.reasonOf e.data,
                 data := d, metadata := m } :: eds)

/-- ESDB.Save (esdb.go lines 36-94). The esdb client call AppendToStream is
abstracted as the `appendToStream` argument (the append-only-log service is
an external collaborator). An empty batch is a no-op. Validation
(ValidateEventsNoVersionCheck) runs first; the expected revision is derived
from the first version (value minus two for version above one, NoStream for
version one, the zero-value Any otherwise); on success every event of the
batch receives GlobalVersion := wr.CommitPosition, the commit position of
the last event of the batch, per the source comment. -/
def esdbSave {T : Type} (ser : Serializer T) (contentType : Bool)
    (appendToStream : String → ExpectedRevision → List EventData →
      Except GoError WriteResult)
    (events : List (Event T)) : Except GoError (List (Event T)) :=
  match events with
  | [] => .ok []
  | e0 :: rest =>
    let version := e0.version
    let stream := streamName e0.aggregateType e0.aggregateID
    match validateEventsNoVersionCheck e0.aggregateID (e0 :: rest) with
    | .error err => .error err
    | .ok _ =>
      match encodeEvents ser contentType (e0 :: rest) with
      | .error err => .error err
      | .ok esdbEvents =>
        let streamOptions :=
          if version > 1 then ExpectedRevision.revision (version - 2)
          else if version == 1 then ExpectedRevision.noStream
          else ExpectedRevision.anyRev
        match appendToStream stream streamOptions esdbEvents with
        | .error err => .error err
        | .ok wr =>
          .ok ((e0 :: rest).map fun e => { e with globalVersion := wr.commitPosition })

/-- A recorded event as delivered by the esdb read stream Recv. -/
structure RecordedEvent where
  streamID : String
  eventType : String
  eventNumber : Nat
  createdDate : GoTime
  data : Bytes
  userMetadata : Option Bytes
deriving DecidableEq, Repr

/-- The esdb iterator.Next (iterator.go lines 23-67), with the read stream
modelled as the list of remaining recorded events; Recv on the exhausted
stream is io.EOF, mapped to ErrNoMoreEvents. The stream id is split on the
separator; an unregistered (type, reason) pair recurses to the next stored
event; Version is the per-stream event number plus one; GlobalVersion
cannot be obtained from ReadStream and stays zero; Timestamp is the
server-created date. Indexing the split result out of range is a Go
runtime panic. -/
def esdbNext {T : Type} (ser : Serializer T) :
    List RecordedEvent → Except GoError (Event T) × List RecordedEvent
  | [] => (.error .noMoreEvents, [])
  | rec :: rest =>
    match splitDash rec.streamID with
    | [] => (.error (.panicked "index out of range"), rest)
    | s0 :: stail =>
      match ser.typeLookup s0 rec.eventType with
      | none => esdbNext ser rest
      | some f =>
        match ser.unmarshalInto rec.data (f ()) with
        | .error err => (.error err, rest)
        | .ok eventData =>
          match metadataDecode ser rec.userMetadata with
          | .error err => (.error err, rest)
          | .ok eventMetadata =>
            match stail with
            | [] => (.error (.panicked "index out of range"), rest)
            | s1 :: _ =>
              (.ok { aggregateID := s1, version := rec.eventNumber + 1,
                     globalVersion := 0, aggregateType := s0,
                     timestamp := rec.createdDate, data := eventData,
                     metadata := eventMetadata }, rest)

/-- The results of `n` successive Next calls on the esdb iterator. -/
def runEsdbNext {T : Type} (ser : Serializer T) :
    List RecordedEvent → Nat → List (Except GoError (Event T))
  | _, 0 => []
  | recs, n + 1 => (esdbNext ser recs).1 :: runEsdbNext ser (esdbNext ser recs).2 n

/-- Modelled from the spec: the append-only-log service itself is an
external collaborator (spec sections 1 and 6). A successful atomic append
records the event data at consecutive per-stream event numbers starting at
the expected revision plus one, each with a server-assigned created
date. -/
def recordAppended (streamID : String) (dates : Nat → GoTime) :
    Nat → List EventData → List RecordedEvent
  | _, [] => []
  | n, ed :: rest =>
    { streamID := streamID, eventType := ed.eventType, eventNumber := n,
      createdDate := dates n, data := ed.data, userMetadata := ed.metadata }
      :: recordAppended streamID dates (n + 1) rest

/-- What the esdb read path reconstructs from a committed batch: the five
preserved fields, GlobalVersion zeroed, Timestamp replaced by the server
created date of the corresponding event number. -/
def expectedReadBack {T : Type} (dates : Nat → GoTime) :
    Nat → List (Event T) → List (Event T)
  | _, [] => []
  | n, e :: rest =>
    { e with globalVersion := 0, timestamp := dates n }
      :: expectedReadBack dates (n + 1) rest

/-- The bbolt iterator.Next (part_002 lines 158-201), with the cursor walk
modelled as the list of remaining raw bucket values; an exhausted cursor
yields ErrNoMoreEvents. A deserialization failure is an error; an
unregistered (type, reason) pair recurses to the next stored value. -/
def bboltNext {T : Type} (ser : Serializer T) :
    List Bytes → Except GoError (Event T) × List Bytes
  | [] => (.error .noMoreEvents, [])
  | obj :: rest =>
    match ser.unmarshalBolt obj with
    | .error _ => (.error (.serializationFailure "could not deserialize event"), rest)
    | .ok bEvent =>
      match ser.typeLookup bEvent.aggregateType bEvent.reason with
      | none => bboltNext ser rest
      | some f =>
        match ser.unmarshalInto bEvent.data (f ()) with
        | .error _ =>
          (.error (.serializationFailure "could not deserialize event data"), rest)
        | .ok eventData =>
          (.ok { aggregateID := bEvent.aggregateID, version := bEvent.version,
                 globalVersion := bEvent.globalVersion,
                 aggregateType := bEvent.aggregateType,
                 timestamp := bEvent.timestamp, data := eventData,
                 metadata := bEvent.metadata }, rest)

/-- One scanned row of the sql events table, in the column order
seq, id, version, reason, type, timestamp, data, metadata. -/
structure SqlRow where
  seq : Version
  id : String
  version : Version
  reason : String
  typ : String
  timestamp : String
  data : String
  metadata : String
deriving DecidableEq, Repr

/-- SQL.eventsFromRows (iterator.go sql part, lines 223-272): per row,
parse the timestamp (time.Parse, an external library call abstracted as
`parseTime`), look up the registered factory and skip the row silently when
the (type, reason) pair is not registered, decode data, decode metadata
only when the column is non-empty, and collect the events in row order; any
error aborts the whole read. -/
def eventsFromRows {T : Type} (ser : Serializer T)
    (parseTime : String → Except GoError GoTime) :
    List SqlRow → Except GoError (List (Event T))
  | [] => .ok []
  | row :: rest =>
    match parseTime row.timestamp with
    | .error err => .error err
    | .ok t =>
      match ser.typeLookup row.typ row.reason with
      | none => eventsFromRows ser parseTime rest
      | some f =>
        match ser.unmarshalInto row.data (f ()) with
        | .error err => .error err
        | .ok eventData =>
          match (if row.metadata = "" then Except.ok Option.none
                 else (ser.unmarshalMeta row.metadata).map Option.some) with
          | .error err => .error err
          | .ok eventMetadata =>
            match eventsFromRows ser parseTime rest with
            | .error err => .error err
            | .ok events =>
              .ok ({ aggregateID := row.id, version := row.version,
                     globalVersion := row.seq, aggregateType := row.typ,
                     timestamp := t, data := eventData,
                     metadata := eventMetadata } :: events)

/-- The metadata part of the serializer roundtrip assumption: Unmarshal
inverts Marshal on the metadata map, when there is one. -/
def MetaRoundtripOK {T : Type} (ser : Serializer T) : Option Meta → Prop
  | none => True
  | some md => ∃ bm, ser.marshalMeta md = .ok bm ∧ ser.unmarshalMeta bm = .ok md

/-- The per-event roundtrip assumption on the injected serializer: the
registry returns a factory for (aggregateType, reasonOf data), Unmarshal
into the fresh instance inverts Marshal on the data, and likewise for the
metadata when present. -/
def RoundtripOK {T : Type} (ser : Serializer T) (e : Event T) : Prop :=
  (∃ f b, ser.typeLookup e.aggregateType (ser.reasonOf e.data) = some f ∧
      ser.marshalData e.data = .ok b ∧ ser.unmarshalInto b (f ()) = .ok e.data) ∧
  MetaRoundtripOK ser e.metadata

/-! ## Snapshot handler (source part_003, snapshot.go) -/

/-- The AggregateRoot surface consumed by validate and the snapshot
handler, modelled from the spec (section 4.1; the aggregate root file is
not among the source files): identity, version counters, and whether the
unsaved-event buffer is non-empty (UnsavedEvents). -/
structure AggregateRoot where
  aggregateID : String
  version : Version
  globalVersion : Version
  unsaved : Bool
deriving DecidableEq, Repr

/-- eventsourcing.Snapshot (part_003 lines 16-22). -/
structure Snapshot where
  id : String
  typ : String
  state : Bytes
  version : Version
  globalVersion : Version
deriving DecidableEq, Repr

/-- validate (part_003 lines 129-137): the EmptyID check comes first, then
the UnsavedEvents check. -/
def validate (root : AggregateRoot) : Except GoError Unit :=
  if root.aggregateID = "" then .error .emptyID
  else if root.unsaved then .error .unsavedEvents
  else .ok ()

/-- The dynamic type of the argument of SnapshotHandler.Save: a
SnapshotAggregate (marshalled through its own Marshal hook), a plain
Aggregate (marshalled by the serializer), or neither. `typ` models
reflect.TypeOf(..).Elem().Name() of the concrete aggregate and
`marshalResult` the outcome of the respective marshal call. -/
inductive SnapshotInput where
  | snapshotAggregate (root : AggregateRoot) (typ : String)
      (marshalResult : Except GoError Bytes)
  | aggregate (root : AggregateRoot) (typ : String)
      (marshalResult : Except GoError Bytes)
  | notAggregate
deriving Repr

/-- The shared body of saveSnapshotAggregate and saveAggregate (part_003
lines 58-98): validate the root, marshal, build the Snapshot and delegate
to the snapshot store Save. The second component records every snapshot
passed to the store (empty when the store was never invoked). -/
def saveRootSnapshot (storeSave : Snapshot → Except GoError Unit)
    (root : AggregateRoot) (typ : String) (marshalResult : Except GoError Bytes) :
    Except GoError Unit × List Snapshot :=
  match validate root with
  | .error err => (.error err, [])
  | .ok _ =>
    match marshalResult with
    | .error err => (.error err, [])
    | .ok b =>
      let snap : Snapshot :=
        { id := root.aggregateID, typ := typ, version := root.version,
          globalVersion := root.globalVersion, state := b }
      (storeSave snap, [snap])

/-- SnapshotHandler.Save (part_003 lines 46-56): dynamic type switch, then
the shared save body; anything else fails with a plain error. -/
def snapshotHandlerSave (storeSave : Snapshot → Except GoError Unit) :
    SnapshotInput → Except GoError Unit × List Snapshot
  | .snapshotAggregate root typ mres => saveRootSnapshot storeSave root typ mres
  | .aggregate root typ mres => saveRootSnapshot storeSave root typ mres
  | .notAggregate => (.error (.other "not an aggregate"), [])

/-- The aggregate root carried by a SnapshotHandler.Save input, when the
input is an aggregate at all. -/
def rootOf : SnapshotInput → Option AggregateRoot
  | .snapshotAggregate root _ _ => some root
  | .aggregate root _ _ => some root
  | .notAggregate => none

/-! ## Event.Reason and the reflect semantics it relies on (source
part_003, event.go) -/

/-- A Go runtime type as relevant to Event.Reason: a defined (named) type
such as a struct, or a pointer type. -/
inductive GoType where
  | named (n : String)
  | pointer (elem : GoType)
deriving DecidableEq, Repr

/-- reflect Type.Elem(): yields the element type of a pointer kind; on a
named non-composite kind such as a struct it is a Go runtime panic. -/
def GoType.elem : GoType → Except GoError GoType
  | .pointer e => .ok e
  | .named _ => .error (.panicked "reflect: Elem of invalid type")

/-- reflect Type.Name(): the name of a defined type; empty for unnamed
composite types such as pointer types. -/
def GoType.typeName : GoType → String
  | .named n => n
  | .pointer _ => ""

/-- The Event.Data value as seen through `any`: the nil interface, or a
value of some dynamic Go type (a typed nil pointer is a non-nil
interface). -/
inductive GoValue where
  | interfaceNil
  | val (typ : GoType)
deriving DecidableEq, Repr

/-- Event.Reason (part_003, event.go lines 165-170): empty string when
`any(e.Data) == any(nil)`, otherwise
`reflect.TypeOf(e.Data).Elem().Name()`. -/
def goReason : GoValue → Except GoError String
  | .interfaceNil => .ok ""
  | .val t =>
    match t.elem with
    | .error err => .error err
    | .ok te => .ok te.typeName

/-! ## Concrete values used by the witnesses and counterexamples -/

def evBorn : Event String :=
  { aggregateID := "1", version := 1, globalVersion := 0, aggregateType := "Person",
    timestamp := 0, data := "Born", metadata := none }

def evAged : Event String :=
  { aggregateID := "1", version := 2, globalVersion := 0, aggregateType := "Person",
    timestamp := 0, data := "AgedOneYear", metadata := none }

/-- The store state after saving `[evBorn, evAged]` into an empty store. -/
def exMemSt : MemoryState String :=
  match memorySave (emptyMemory String) [evBorn, evAged] with
  | .ok (s, _) => s
  | .error _ => emptyMemory String

/-- The batch as committed: global versions 1 and 2 were assigned. -/
def exMemOut : List (Event String) :=
  [{ aggregateID := "1", version := 1, globalVersion := 1, aggregateType := "Person",
     timestamp := 0, data := "Born", metadata := none },
   { aggregateID := "1", version := 2, globalVersion := 2, aggregateType := "Person",
     timestamp := 0, data := "AgedOneYear", metadata := none }]

/-- A concrete serializer over String payloads: the identity encoding, with
Born and AgedOneYear registered under the Person aggregate and everything
else unregistered. -/
def exSer : Serializer String :=
  { typeLookup := fun ty re =>
      if ty = "Person" && (re = "Born" || re = "AgedOneYear") then
        some (fun _ => "")
      else none
  , marshalData := fun s => .ok s
  , unmarshalInto := fun b _ => .ok b
  , marshalMeta := fun _ => .ok ""
  , unmarshalMeta := fun _ => .ok []
  , unmarshalBolt := fun b =>
      .ok { aggregateID := "1", aggregateType := "X", version := 1,
            globalVersion := 1, reason := "Unknown", timestamp := 0,
            metadata := none, data := b }
  , reasonOf := fun s => s }

/-- A concrete esdb append: every batch commits at position 7. -/
def exAppend : String → ExpectedRevision → List EventData →
    Except GoError WriteResult :=
  fun _ _ _ => .ok { commitPosition := 7 }

/-- A recorded esdb event with an unregistered event type. -/
def exRec : RecordedEvent :=
  { streamID := "Person-1", eventType := "Unknown", eventNumber := 0,
    createdDate := 0, data := "d", userMetadata := none }

/-- The bolt event `exSer.unmarshalBolt` reconstructs from "rawbolt"; its
(X, Unknown) pair is unregistered. -/
def exBoltEvent : BoltEvent :=
  { aggregateID := "1", aggregateType := "X", version := 1, globalVersion := 1,
    reason := "Unknown", timestamp := 0, metadata := none, data := "rawbolt" }

/-- A sql row with an unregistered reason. -/
def exRow : SqlRow :=
  { seq := 1, id := "1", version := 1, reason := "Unknown", typ := "Person",
    timestamp := "ts", data := "d", metadata := "" }

/-- An aggregate root with identity set and unsaved events pending. -/
def exRoot : AggregateRoot :=
  { aggregateID := "7", version := 3, globalVersion := 4, unsaved := true }

/-- An aggregate root with identity unset AND unsaved events pending. -/
def exRootBad : AggregateRoot :=
  { aggregateID := "", version := 3, globalVersion := 3, unsaved := true }

/-- evBorn as committed by the esdb Save under exAppend. -/
def exSaved0 : Event String := { evBorn with globalVersion := 7 }

/-- evAged as committed by the esdb Save under exAppend. -/
def exSaved1 : Event String := { evAged with globalVersion := 7 }

/-- The esdb encoding of evBorn under exSer. -/
def exED0 : EventData :=
  { jsonContent := true, eventType := "Born", data := "Born", metadata := none }

/-- The esdb encoding of evAged under exSer. -/
def exED1 : EventData :=
  { jsonContent := true, eventType := "AgedOneYear", data := "AgedOneYear",
    metadata := none }

/-- A server-side clock for the concrete esdb run: event number n is
recorded at instant 99 + n. -/
def exDates : Nat → GoTime := fun n => 99 + n

/-- exED0 as recorded by the server at event number 0. -/
def exRec0 : RecordedEvent :=
  { streamID := "Person-1", eventType := "Born", eventNumber := 0,
    createdDate := 99, data := "Born", userMetadata := none }

/-- exED1 as recorded by the server at event number 1. -/
def exRec1 : RecordedEvent :=
  { streamID := "Person-1", eventType := "AgedOneYear", eventNumber := 1,
    createdDate := 100, data := "AgedOneYear", userMetadata := none }

/-- What the esdb iterator reconstructs from exRec0: GlobalVersion is zero
and Timestamp is the server instant, everything else as written. -/
def exBack0 : Event String :=
  { aggregateID := "1", version := 1, globalVersion := 0, aggregateType := "Person",
    timestamp := 99, data := "Born", metadata := none }

/-! ## Helper lemmas about the memory store -/

theorem stampGlobal_length {T : Type} (n : Nat) (es : List (Event T)) :
    (stampGlobal n es).length = es.length := by
  induction es generalizing n with
  | nil => rfl
  | cons e rest ih => simp [stampGlobal, ih]

theorem stampGlobal_map_globalVersion {T : Type} (n : Nat) (es : List (Event T)) :
    (stampGlobal n es).map (fun e => e.globalVersion) = List.range' (n + 1) es.length := by
  induction es generalizing n with
  | nil => rfl
  | cons e rest ih => simp [stampGlobal, List.range'_succ, ih]

theorem stampGlobal_map_version {T : Type} (n : Nat) (es : List (Event T)) :
    (stampGlobal n es).map (fun e => e.version) = es.map (fun e => e.version) := by
  induction es generalizing n with
  | nil => rfl
  | cons e rest ih => simp [stampGlobal, ih]

theorem stampGlobal_map_data {T : Type} (n : Nat) (es : List (Event T)) :
    (stampGlobal n es).map (fun e => e.data) = es.map (fun e => e.data) := by
  induction es generalizing n with
  | nil => rfl
  | cons e rest ih => simp [stampGlobal, ih]

theorem contiguousFrom_map_version {T : Type} (v : Version) (es : List (Event T))
    (h : contiguousFrom v es = true) :
    es.map (fun e => e.version) = List.range' (v + 1) es.length := by
  induction es generalizing v with
  | nil => rfl
  | cons e rest ih =>
    simp only [contiguousFrom, Bool.and_eq_true, beq_iff_eq] at h
    simp [List.range'_succ, h.1, ih (v + 1) h.2]

theorem validateEvents_ok_map_version {T : Type} (aggregateID : String) (cur : Version)
    (es : List (Event T)) (h : validateEvents aggregateID cur es = .ok ()) :
    es.map (fun e => e.version) = List.range' (cur + 1) es.length := by
  match es with
  | [] => rfl
  | e0 :: rest =>
    simp only [validateEvents] at h
    by_cases h1 : (!((e0 :: rest).all fun e =>
        e.aggregateID == aggregateID && e.aggregateType == e0.aggregateType)) = true
    · rw [if_pos h1] at h; cases h
    · rw [if_neg h1] at h
      by_cases h2 : (e0.version != cur + 1) = true
      · rw [if_pos h2] at h; cases h
      · rw [if_neg h2] at h
        by_cases h3 : (!contiguousFrom e0.version rest) = true
        · rw [if_pos h3] at h; cases h
        · have h2x : e0.version = cur + 1 := by simpa using h2
          have h3x : contiguousFrom e0.version rest = true := by simpa using h3
          rw [List.map_cons, contiguousFrom_map_version _ _ h3x, h2x,
            List.length_cons, List.range'_succ]

theorem currentVersion_of_bucket {T : Type} (b : List (Event T))
    (h : b.map (fun e => e.version) = List.range' 1 b.length) :
    (match b.getLast? with
     | none => 0
     | some lastEvent => lastEvent.version) = b.length := by
  match b with
  | [] => rfl
  | e :: bs =>
    have h2 := congrArg List.getLast? h
    rw [List.getLast?_map] at h2
    rw [show (e :: bs).length = bs.length + 1 from rfl, List.range'_concat,
      List.getLast?_concat] at h2
    match hgl : (e :: bs).getLast? with
    | none => rw [hgl] at h2; cases h2
    | some le =>
      rw [hgl] at h2
      simp only [Option.map_some', Option.some.injEq] at h2
      simp only [hgl, List.length_cons]
      rw [h2, Nat.one_mul, Nat.add_comm]

theorem range'_one_append (m k : Nat) :
    List.range' 1 m ++ List.range' (m + 1) k = List.range' 1 (m + k) := by
  have h := List.range'_append 1 m k 1
  simp only [one_mul] at h
  rw [Nat.add_comm 1 m] at h
  rw [h, Nat.add_comm k m]

theorem memorySave_preserves {T : Type} (st : MemoryState T) (es : List (Event T))
    (st2 : MemoryState T) (out : List (Event T))
    (hB : BucketsOK st) (hG : GlobalsOK st)
    (h : memorySave st es = .ok (st2, out)) :
    BucketsOK st2 ∧ GlobalsOK st2 := by
  match es with
  | [] =>
    simp only [memorySave, Except.ok.injEq, Prod.mk.injEq] at h
    rw [← h.1]
    exact ⟨hB, hG⟩
  | e0 :: rest =>
    simp only [memorySave] at h
    split at h
    · cases h
    · rename_i val hval
      simp only [Except.ok.injEq, Prod.mk.injEq] at h
      obtain ⟨hst2, hout⟩ := h
      subst hst2
      have hcur := currentVersion_of_bucket _
        (hB (aggregateKey e0.aggregateType e0.aggregateID))
      obtain ⟨⟩ := val
      have hver := validateEvents_ok_map_version _ _ _ hval
      rw [hcur] at hver
      constructor
      · intro key
        show ((if key = aggregateKey e0.aggregateType e0.aggregateID then
            st.aggregateEvents (aggregateKey e0.aggregateType e0.aggregateID) ++
              stampGlobal st.eventsInOrder.length (e0 :: rest)
          else st.aggregateEvents key).map (fun e => e.version))
          = List.range' 1 (if key = aggregateKey e0.aggregateType e0.aggregateID then
            st.aggregateEvents (aggregateKey e0.aggregateType e0.aggregateID) ++
              stampGlobal st.eventsInOrder.length (e0 :: rest)
          else st.aggregateEvents key).length
        by_cases hk : key = aggregateKey e0.aggregateType e0.aggregateID
        · rw [if_pos hk, List.map_append, List.length_append,
            hB (aggregateKey e0.aggregateType e0.aggregateID),
            stampGlobal_map_version, hver, stampGlobal_length,
            range'_one_append]
        · rw [if_neg hk]
          exact hB key
      · show (st.eventsInOrder ++ stampGlobal st.eventsInOrder.length (e0 :: rest)).map
            (fun e => e.globalVersion)
          = List.range' 1
            (st.eventsInOrder ++ stampGlobal st.eventsInOrder.length (e0 :: rest)).length
        rw [List.map_append, List.length_append, hG, stampGlobal_map_globalVersion,
          stampGlobal_length, range'_one_append]

theorem saveMany_invariant {T : Type} (st : MemoryState T)
    (batches : List (List (Event T))) (hB : BucketsOK st) (hG : GlobalsOK st) :
    BucketsOK (saveMany st batches) ∧ GlobalsOK (saveMany st batches) := by
  induction batches generalizing st with
  | nil => exact ⟨hB, hG⟩
  | cons b bs ih =>
    simp only [saveMany, List.foldl_cons]
    match hsave : memorySave st b with
    | .ok (s2, o) =>
      have h2 := memorySave_preserves st b s2 o hB hG hsave
      simpa [hsave] using ih s2 h2.1 h2.2
    | .error e => simpa [hsave] using ih st hB hG

theorem runNext_append {T : Type} (post pre : List (Event T)) :
    runNext ⟨pre ++ post, pre.length⟩ (post.length + 1)
      = post.map Except.ok ++ [Except.error GoError.noMoreEvents] := by
  induction post generalizing pre with
  | nil => simp [runNext, memNext]
  | cons e rest ih =>
    have hlt : ¬((pre ++ e :: rest).length ≤ pre.length) := by simp
    have hstep : memNext (⟨pre ++ e :: rest, pre.length⟩ : MemIterator T)
        = (.ok e, ⟨pre ++ e :: rest, pre.length + 1⟩) := by
      simp only [memNext, dif_neg hlt]
      congr 1
      congr 1
      rw [List.get_eq_getElem, List.getElem_append_right (Nat.le_refl pre.length)]
      simp
    have hre : (⟨pre ++ e :: rest, pre.length + 1⟩ : MemIterator T)
        = ⟨(pre ++ [e]) ++ rest, (pre ++ [e]).length⟩ := by
      simp
    simp only [List.length_cons]
    rw [runNext, hstep]
    dsimp only
    rw [hre, ih (pre ++ [e])]
    simp

/-! ## Claims about the memory store -/

/-- C3: for every iterator returned by the in-memory event store Get,
repeated calls to Next yield each matching event exactly once, in order, and
then Next fails with the NoMoreEvents sentinel exactly once at
end-of-stream: the first `length` calls return the events, the next call
returns `ErrNoMoreEvents`, and no other call in that run fails. -/
theorem memory_iterator_each_once_then_sentinel {T : Type} (st : MemoryState T)
    (id aggregateType : String) (afterVersion : Version) (it : MemIterator T)
    (h : memoryGet st id aggregateType afterVersion = .ok it) :
    runNext it (it.events.length + 1)
      = it.events.map Except.ok ++ [Except.error GoError.noMoreEvents] := by
  simp only [memoryGet] at h
  split at h
  · cases h
  · injection h with h
    subst h
    simpa using runNext_append _ ([] : List (Event T))

theorem memory_iterator_each_once_then_sentinel_witness :
    runNext (⟨exMemOut, 0⟩ : MemIterator String) ((⟨exMemOut, 0⟩ : MemIterator String).events.length + 1)
      = exMemOut.map Except.ok ++ [Except.error GoError.noMoreEvents] :=
  memory_iterator_each_once_then_sentinel exMemSt "1" "Person" 0 ⟨exMemOut, 0⟩ (by rfl)

/-- C4: across any sequence of Save calls on one in-memory store starting
empty, the GlobalVersion values of the committed events (the global
`eventsInOrder` slice, in commit order) are exactly the consecutive integers
1, 2, ..., n: store-wide strictly increasing, unique and totally ordered
across all aggregates. The statement quantifies over arbitrary input
batches, whose incoming GlobalVersion fields are ignored and overwritten at
commit, so a GlobalVersion is assigned only at commit. -/
theorem memory_globalversion_consecutive {T : Type} (batches : List (List (Event T))) :
    (saveMany (emptyMemory T) batches).eventsInOrder.map (fun e => e.globalVersion)
      = List.range' 1 (saveMany (emptyMemory T) batches).eventsInOrder.length :=
  (saveMany_invariant (emptyMemory T) batches (fun _ => rfl) rfl).2

/-- C5: a valid batch accepted by Save into an empty in-memory store, read
back with Get for the same (id, aggregateType) and afterVersion 0, yields
exactly the committed batch: same Data in the same order, ordered strictly
ascending by Version. -/
theorem memory_save_get_roundtrip {T : Type} (e0 : Event T) (rest : List (Event T))
    (st2 : MemoryState T) (out : List (Event T))
    (h : memorySave (emptyMemory T) (e0 :: rest) = .ok (st2, out)) :
    memoryGet st2 e0.aggregateID e0.aggregateType 0 = .ok ⟨out, 0⟩ ∧
    out.map (fun e => e.data) = (e0 :: rest).map (fun e => e.data) ∧
    List.Pairwise (fun a b => a.version < b.version) out := by
  simp only [memorySave, emptyMemory, List.getLast?_nil, List.length_nil] at h
  split at h
  · cases h
  · rename_i val hval
    simp only [Except.ok.injEq, Prod.mk.injEq] at h
    obtain ⟨hst2, hout⟩ := h
    subst hst2
    obtain ⟨⟩ := val
    have hver := validateEvents_ok_map_version _ _ _ hval
    have hverS : (stampGlobal 0 (e0 :: rest)).map (fun e => e.version)
        = List.range' 1 (e0 :: rest).length := by
      rw [stampGlobal_map_version, hver]
    have hpos : ∀ e ∈ stampGlobal 0 (e0 :: rest), decide (0 < e.version) = true := by
      intro e he
      have hm : e.version ∈ (stampGlobal 0 (e0 :: rest)).map (fun e => e.version) :=
        List.mem_map_of_mem _ he
      rw [hverS] at hm
      obtain ⟨i, _, hi⟩ := List.mem_range'.mp hm
      simp [hi]
    have hfil : (stampGlobal 0 (e0 :: rest)).filter (fun e => decide (0 < e.version))
        = stampGlobal 0 (e0 :: rest) := List.filter_eq_self.mpr hpos
    subst hout
    refine ⟨?_, ?_, ?_⟩
    · have hemp : (stampGlobal 0 (e0 :: rest)).isEmpty = false := by
        simp [stampGlobal]
      simp only [memoryGet, List.nil_append, eq_self_iff_true, if_true, hfil, hemp,
        Bool.false_eq_true, if_false]
    · exact stampGlobal_map_data 0 (e0 :: rest)
    · rw [← List.pairwise_map (f := fun e : Event T => e.version)
        (R := fun a b => a < b), hverS]
      exact List.pairwise_lt_range' 1 (e0 :: rest).length

theorem memory_save_get_roundtrip_witness :
    memoryGet exMemSt evBorn.aggregateID evBorn.aggregateType 0 = .ok ⟨exMemOut, 0⟩ ∧
    exMemOut.map (fun e => e.data) = ([evBorn, evAged]).map (fun e => e.data) ∧
    List.Pairwise (fun a b => a.version < b.version) exMemOut :=
  memory_save_get_roundtrip evBorn [evAged] exMemSt exMemOut (by rfl)

/-- C6: on every reachable in-memory store state, for every aggregate
(id, type) and every afterVersion, a successful Get returns the iterator
over exactly the stored events of that aggregate whose Version is strictly
greater than afterVersion, in strictly ascending Version order; in
particular with baseline N only events with Version greater than N are
fetched. -/
theorem memory_get_exactly_after_version {T : Type} (batches : List (List (Event T)))
    (id aggregateType : String) (afterVersion : Version) (it : MemIterator T)
    (h : memoryGet (saveMany (emptyMemory T) batches) id aggregateType afterVersion
      = .ok it) :
    it.events = ((saveMany (emptyMemory T) batches).aggregateEvents
        (aggregateKey aggregateType id)).filter (fun e => afterVersion < e.version) ∧
    List.Pairwise (fun a b => a.version < b.version) it.events := by
  have hB := (saveMany_invariant (emptyMemory T) batches (fun _ => rfl) rfl).1
  simp only [memoryGet] at h
  split at h
  · cases h
  · injection h with h
    subst h
    refine ⟨rfl, ?_⟩
    have hp : List.Pairwise (fun a b : Event T => a.version < b.version)
        ((saveMany (emptyMemory T) batches).aggregateEvents
          (aggregateKey aggregateType id)) := by
      rw [← List.pairwise_map (f := fun e : Event T => e.version)
        (R := fun a b => a < b), hB (aggregateKey aggregateType id)]
      exact List.pairwise_lt_range' _ _
    exact hp.sublist (List.filter_sublist _)

theorem memory_get_exactly_after_version_witness :
    (⟨[{ aggregateID := "1", version := 2, globalVersion := 2,
         aggregateType := "Person", timestamp := 0, data := "AgedOneYear",
         metadata := none }], 0⟩ : MemIterator String).events
      = ((saveMany (emptyMemory String) [[evBorn, evAged]]).aggregateEvents
          (aggregateKey "Person" "1")).filter (fun e => 1 < e.version) ∧
    List.Pairwise (fun a b => a.version < b.version)
      (⟨[{ aggregateID := "1", version := 2, globalVersion := 2,
           aggregateType := "Person", timestamp := 0, data := "AgedOneYear",
           metadata := none }], 0⟩ : MemIterator String).events :=
  memory_get_exactly_after_version [[evBorn, evAged]] "1" "Person" 1 _ (by rfl)

/-- C9: Memory.Get fails with the NoEvents sentinel exactly when no stored
event of the queried aggregate has Version strictly greater than
afterVersion, including the case of an aggregate whose events are all at or
below afterVersion. -/
theorem memory_get_noevents_iff {T : Type} (st : MemoryState T)
    (id aggregateType : String) (afterVersion : Version) :
    memoryGet st id aggregateType afterVersion = .error .noEvents
      ↔ ∀ e ∈ st.aggregateEvents (aggregateKey aggregateType id),
          e.version ≤ afterVersion := by
  simp only [memoryGet]
  split
  · rename_i hemp
    simp only [List.isEmpty_iff, List.filter_eq_nil_iff, decide_eq_true_eq] at hemp
    constructor
    · intro _ e he
      exact Nat.le_of_not_lt (hemp e he)
    · intro _
      rfl
  · rename_i hemp
    simp only [List.isEmpty_iff, List.filter_eq_nil_iff, decide_eq_true_eq] at hemp
    constructor
    · intro hcontra
      cases hcontra
    · intro hall
      exact absurd (fun e he => Nat.not_lt.mpr (hall e he)) hemp

/-! ## Helper lemmas about stream-id splitting -/

theorem splitOnChar_ne_nil (sep : Char) (l : List Char) : splitOnChar sep l ≠ [] := by
  match l with
  | [] => simp [splitOnChar]
  | c :: rest =>
    simp only [splitOnChar]
    split
    · simp
    · split
      · simp
      · simp

theorem splitDash_ne_nil (s : String) : splitDash s ≠ [] := by
  simp only [splitDash, ne_eq, List.map_eq_nil_iff]
  exact splitOnChar_ne_nil _ _

theorem splitOnChar_no_sep (sep : Char) (l : List Char) (h : sep ∉ l) :
    splitOnChar sep l = [l] := by
  induction l with
  | nil => rfl
  | cons c rest ih =>
    have hc : ¬(c = sep) := fun hc => h (hc ▸ List.mem_cons_self c rest)
    have hrest : sep ∉ rest := fun hr => h (List.mem_cons_of_mem c hr)
    simp only [splitOnChar, if_neg hc, ih hrest]

theorem splitOnChar_sep_append (sep : Char) (a b : List Char) (h : sep ∉ a) :
    splitOnChar sep (a ++ sep :: b) = a :: splitOnChar sep b := by
  induction a with
  | nil => simp [splitOnChar]
  | cons c arest ih =>
    have hc : ¬(c = sep) := fun hc => h (hc ▸ List.mem_cons_self c arest)
    have harest : sep ∉ arest := fun hr => h (List.mem_cons_of_mem c hr)
    rw [List.cons_append, splitOnChar, if_neg hc, ih harest]

/-- Splitting the esdb stream name recovers the aggregate type and id when
neither contains the separator. -/
theorem splitDash_streamName (ty id : String)
    (hty : '-' ∉ ty.data) (hid : '-' ∉ id.data) :
    splitDash (streamName ty id) = [ty, id] := by
  have hdata : (streamName ty id).data = ty.data ++ '-' :: id.data := by
    simp [streamName, String.data_append, List.append_assoc]
  simp only [splitDash, hdata, splitOnChar_sep_append '-' _ _ hty,
    splitOnChar_no_sep '-' _ hid, List.map_cons, List.map_nil]

/-! ## Claims about the esdb backend write path (C1) -/

/-- C1 counterexample: a successfully committed two-event batch gets the
single append commit position 7 as the GlobalVersion of BOTH events, so the
assigned GlobalVersions are not pairwise distinct and cannot form a strict
total order. -/
theorem esdb_save_globalversions_not_distinct :
    (esdbSave exSer true exAppend [evBorn, evAged]).map
        (fun l => l.map fun e => e.globalVersion)
      = .ok [7, 7] ∧ ¬ ([7, 7] : List Version).Nodup :=
  ⟨rfl, by decide⟩

/-- C1 (amended): for every batch the esdb backend Save commits
successfully, every committed event is assigned one and the same
GlobalVersion, the commit position returned by the atomic append of the
batch (the source sets all events to the commit position of the last event);
within a batch the assigned GlobalVersions are therefore equal rather than
pairwise distinct. -/
theorem esdb_save_assigns_commit_position {T : Type} (ser : Serializer T)
    (contentType : Bool)
    (appendToStream : String → ExpectedRevision → List EventData →
      Except GoError WriteResult)
    (events out : List (Event T))
    (h : esdbSave ser contentType appendToStream events = .ok out) :
    ∃ g, out = events.map fun e => { e with globalVersion := g } := by
  match events with
  | [] =>
    simp only [esdbSave] at h
    injection h with h
    exact ⟨0, h.symm⟩
  | e0 :: rest =>
    simp only [esdbSave] at h
    split at h
    · cases h
    · split at h
      · cases h
      · split at h
        · cases h
        · rename_i wr hwr
          injection h with h
          exact ⟨wr.commitPosition, h.symm⟩

theorem esdb_save_assigns_commit_position_witness :
    ∃ g, [{ evBorn with globalVersion := 7 }, { evAged with globalVersion := 7 }]
      = [evBorn, evAged].map fun e => { e with globalVersion := g } :=
  esdb_save_assigns_commit_position exSer true exAppend [evBorn, evAged]
    [{ evBorn with globalVersion := 7 }, { evAged with globalVersion := 7 }] (by rfl)

/-! ## Claim about the esdb storage-encoding roundtrip (C2) -/

theorem metadataEncode_decode {T : Type} (ser : Serializer T) (mo : Option Meta)
    (m : Option Bytes) (henc : metadataEncode ser mo = .ok m)
    (hrt : MetaRoundtripOK ser mo) :
    metadataDecode ser m = .ok mo := by
  match mo with
  | none =>
    simp only [metadataEncode] at henc
    injection henc with henc
    rw [← henc]
    rfl
  | some md =>
    simp only [MetaRoundtripOK] at hrt
    obtain ⟨bm, hbm, hub⟩ := hrt
    simp only [metadataEncode, hbm, Except.map] at henc
    injection henc with henc
    rw [← henc]
    simp only [metadataDecode, hub, Except.map]

/-- One step of the esdb iterator over a recorded event whose stream id is
well formed and whose (type, reason) pair is registered. -/
theorem esdbNext_registered {T : Type} (ser : Serializer T) (ty id : String)
    (hty : '-' ∉ ty.data) (hid : '-' ∉ id.data)
    (rec : RecordedEvent) (rest : List RecordedEvent)
    (f : Unit → T) (dataV : T) (metaV : Option Meta)
    (hstream : rec.streamID = streamName ty id)
    (hf : ser.typeLookup ty rec.eventType = some f)
    (hu : ser.unmarshalInto rec.data (f ()) = .ok dataV)
    (hm : metadataDecode ser rec.userMetadata = .ok metaV) :
    esdbNext ser (rec :: rest)
      = (.ok { aggregateID := id, version := rec.eventNumber + 1,
               globalVersion := 0, aggregateType := ty,
               timestamp := rec.createdDate, data := dataV,
               metadata := metaV }, rest) := by
  simp only [esdbNext, hstream, splitDash_streamName ty id hty hid, hf, hu, hm]

theorem validateNVC_ok_facts {T : Type} (aggregateID : String) (e0 : Event T)
    (rest : List (Event T))
    (h : validateEventsNoVersionCheck aggregateID (e0 :: rest) = .ok ()) :
    (∀ e ∈ e0 :: rest,
      e.aggregateID = aggregateID ∧ e.aggregateType = e0.aggregateType) ∧
    (e0 :: rest).map (fun e => e.version)
      = List.range' e0.version (e0 :: rest).length := by
  simp only [validateEventsNoVersionCheck] at h
  by_cases h1 : (!((e0 :: rest).all fun e =>
      e.aggregateID == aggregateID && e.aggregateType == e0.aggregateType)) = true
  · rw [if_pos h1] at h; cases h
  · rw [if_neg h1] at h
    by_cases h3 : (!contiguousFrom e0.version rest) = true
    · rw [if_pos h3] at h; cases h
    · have h1x : ((e0 :: rest).all fun e =>
          e.aggregateID == aggregateID && e.aggregateType == e0.aggregateType)
          = true := by simpa using h1
      have h3x : contiguousFrom e0.version rest = true := by simpa using h3
      refine ⟨?_, ?_⟩
      · intro e he
        have := List.all_eq_true.mp h1x e he
        simpa using this
      · rw [List.map_cons, contiguousFrom_map_version _ _ h3x, List.length_cons,
          List.range'_succ]

/-- The esdb read path reconstructs a recorded batch event by event: given
that every event of the batch shares the aggregate identity, the versions
are consecutive from n+1, the serializer round-trips every payload, and
the server recorded the encoded batch from event number n, the iterator
yields exactly the written events with GlobalVersion zeroed and Timestamp
replaced by the server created dates. -/
theorem esdb_read_back_aux {T : Type} (ser : Serializer T) (contentType : Bool)
    (ty id : String) (dates : Nat → GoTime)
    (hty : '-' ∉ ty.data) (hid : '-' ∉ id.data) :
    ∀ (es : List (Event T)) (n : Nat) (eds : List EventData),
      (∀ e ∈ es, e.aggregateID = id ∧ e.aggregateType = ty ∧ RoundtripOK ser e) →
      es.map (fun e => e.version) = List.range' (n + 1) es.length →
      encodeEvents ser contentType es = .ok eds →
      runEsdbNext ser (recordAppended (streamName ty id) dates n eds) es.length
        = (expectedReadBack dates n es).map Except.ok := by
  intro es
  induction es with
  | nil =>
    intro n eds _ _ henc
    simp only [encodeEvents] at henc
    injection henc with henc
    rw [← henc]
    rfl
  | cons e erest ih =>
    intro n eds hmem hver henc
    obtain ⟨heid, hety, hrt⟩ := hmem e (List.mem_cons_self e erest)
    obtain ⟨⟨f, b, hf, hb, hu⟩, hmeta⟩ := hrt
    simp only [encodeEvents] at henc
    split at henc
    · cases henc
    · rename_i d hd
      split at henc
      · cases henc
      · rename_i m hm
        split at henc
        · cases henc
        · rename_i eds2 henc2
          injection henc with henc
          subst henc
          have hbd : b = d := by
            rw [hb] at hd
            injection hd
          rw [hbd] at hu
          have hfd : ser.typeLookup ty (ser.reasonOf e.data) = some f := hety ▸ hf
          have hmd : metadataDecode ser m = .ok e.metadata :=
            metadataEncode_decode ser e.metadata m hm hmeta
          simp only [List.map_cons, List.length_cons, List.range'_succ] at hver
          injection hver with hv1 hv2
          simp only [recordAppended, List.length_cons, runEsdbNext]
          rw [esdbNext_registered ser ty id hty hid _ _ f e.data e.metadata rfl
            hfd hu hmd]
          simp only [expectedReadBack, List.map_cons]
          congr 1
          · simp only [heid, hety, hv1]
          · exact ih (n + 1) eds2
              (fun e2 he2 => hmem e2 (List.mem_cons_of_mem e he2)) hv2 henc2

/-- C2 counterexample: a batch committed through the esdb Save and read
back through the iterator does not preserve the whole canonical field set:
the committed events carry the append commit position 7 as GlobalVersion
and Timestamp 0, but the read-back event carries GlobalVersion 0 (the
ReadStream path cannot supply it) and the server created date 99 as
Timestamp. -/
theorem esdb_roundtrip_not_lossless :
    esdbSave exSer true exAppend [evBorn, evAged] = .ok [exSaved0, exSaved1] ∧
    encodeEvents exSer true [evBorn, evAged] = .ok [exED0, exED1] ∧
    recordAppended (streamName "Person" "1") exDates 0 [exED0, exED1]
      = [exRec0, exRec1] ∧
    (esdbNext exSer [exRec0, exRec1]).1 = .ok exBack0 ∧
    exBack0.globalVersion ≠ exSaved0.globalVersion ∧
    exBack0.timestamp ≠ exSaved0.timestamp :=
  ⟨rfl, rfl, rfl, rfl, by decide, by decide⟩

/-- C2 (amended): for a batch written through the esdb Save and read back
through the iterator, AggregateID, Version, AggregateType, Data and
Metadata are preserved, provided the aggregate type and id contain no
stream-separator character and the injected serializer round-trips each
payload; GlobalVersion is NOT preserved (every read-back event carries
zero) and Timestamp is replaced by the server created date. -/
theorem esdb_save_read_back {T : Type} (ser : Serializer T) (contentType : Bool)
    (appendToStream : String → ExpectedRevision → List EventData →
      Except GoError WriteResult)
    (e0 : Event T) (rest out : List (Event T)) (eds : List EventData)
    (dates : Nat → GoTime)
    (hs : esdbSave ser contentType appendToStream (e0 :: rest) = .ok out)
    (henc : encodeEvents ser contentType (e0 :: rest) = .ok eds)
    (hty : '-' ∉ e0.aggregateType.data) (hid : '-' ∉ e0.aggregateID.data)
    (hv : 1 ≤ e0.version)
    (hrt : ∀ e ∈ e0 :: rest, RoundtripOK ser e) :
    runEsdbNext ser
      (recordAppended (streamName e0.aggregateType e0.aggregateID) dates
        (e0.version - 1) eds)
      (e0 :: rest).length
      = (expectedReadBack dates (e0.version - 1) (e0 :: rest)).map Except.ok := by
  have hval : validateEventsNoVersionCheck e0.aggregateID (e0 :: rest) = .ok () := by
    simp only [esdbSave] at hs
    split at hs
    · cases hs
    · rename_i val hv2
      obtain ⟨⟩ := val
      exact hv2
  obtain ⟨hall, hver⟩ := validateNVC_ok_facts _ _ _ hval
  have hv0 : e0.version - 1 + 1 = e0.version := Nat.sub_add_cancel hv
  exact esdb_read_back_aux ser contentType e0.aggregateType e0.aggregateID dates
    hty hid (e0 :: rest) (e0.version - 1) eds
    (fun e he => ⟨(hall e he).1, (hall e he).2, hrt e he⟩)
    (by rw [hv0]; exact hver) henc

theorem esdb_save_read_back_witness :
    runEsdbNext exSer
      (recordAppended (streamName evBorn.aggregateType evBorn.aggregateID) exDates
        (evBorn.version - 1) [exED0, exED1])
      ([evBorn, evAged] : List (Event String)).length
      = (expectedReadBack exDates (evBorn.version - 1) [evBorn, evAged]).map
          Except.ok :=
  esdb_save_read_back exSer true exAppend evBorn [evAged] [exSaved0, exSaved1]
    [exED0, exED1] exDates (by rfl) (by rfl) (by decide) (by decide) (by decide)
    (by
      intro e he
      rcases List.mem_cons.mp he with h1 | h2
      · subst h1
        exact ⟨⟨fun _ => "", "Born", rfl, rfl, rfl⟩, trivial⟩
      · rcases List.mem_cons.mp h2 with h3 | h4
        · subst h3
          exact ⟨⟨fun _ => "", "AgedOneYear", rfl, rfl, rfl⟩, trivial⟩
        · cases h4)

/-! ## Claim about skipping unregistered events (C7) -/

/-- C7: on all three backend read paths a stored event whose
(aggregateType, reason) lookup in the serializer is not registered is
skipped silently during replay: the bbolt iterator Next and the esdb
iterator Next recurse to the next stored entry and the sql row loop
continues with the next row; the skipped entry is neither returned nor an
error. -/
theorem unregistered_events_skipped {T : Type} (ser : Serializer T)
    (parseTime : String → Except GoError GoTime)
    (obj : Bytes) (objs : List Bytes) (bEvent : BoltEvent)
    (rec : RecordedEvent) (recs : List RecordedEvent)
    (row : SqlRow) (rows : List SqlRow) (t : GoTime)
    (hb1 : ser.unmarshalBolt obj = .ok bEvent)
    (hb2 : ser.typeLookup bEvent.aggregateType bEvent.reason = none)
    (he : ser.typeLookup ((splitDash rec.streamID).headD "") rec.eventType = none)
    (hs1 : parseTime row.timestamp = .ok t)
    (hs2 : ser.typeLookup row.typ row.reason = none) :
    bboltNext ser (obj :: objs) = bboltNext ser objs ∧
    esdbNext ser (rec :: recs) = esdbNext ser recs ∧
    eventsFromRows ser parseTime (row :: rows) = eventsFromRows ser parseTime rows := by
  refine ⟨?_, ?_, ?_⟩
  · simp only [bboltNext, hb1, hb2]
  · match hsp : splitDash rec.streamID with
    | [] => exact absurd hsp (splitDash_ne_nil _)
    | s0 :: stail =>
      rw [hsp, List.headD_cons] at he
      simp only [esdbNext, hsp, he]
  · simp only [eventsFromRows, hs1, hs2]

theorem unregistered_events_skipped_witness :
    bboltNext exSer ["rawbolt"] = bboltNext exSer [] ∧
    esdbNext exSer [exRec] = esdbNext exSer [] ∧
    eventsFromRows exSer (fun _ => .ok 0) [exRow]
      = eventsFromRows exSer (fun _ => .ok 0) [] :=
  unregistered_events_skipped exSer (fun _ => .ok 0) "rawbolt" [] exBoltEvent
    exRec [] exRow [] 0 (by rfl) (by rfl) (by rfl) (by rfl) (by rfl)

/-! ## Claim about SnapshotHandler.Save validation (C8) -/

/-- C8 counterexample: for an aggregate whose identity is unset AND whose
unsaved-event buffer is non-empty, SnapshotHandler.Save fails with EmptyID,
not with the UnsavedEvents error the claim requires whenever the buffer is
non-empty; the claim as stated is false (the store is still never
invoked). -/
theorem snapshothandler_bothflags_returns_emptyid :
    snapshotHandlerSave (fun _ => .ok ()) (.aggregate exRootBad "Person" (.ok "state"))
      = (.error .emptyID, []) ∧ GoError.emptyID ≠ GoError.unsavedEvents :=
  ⟨rfl, by decide⟩

/-- C8 (amended): SnapshotHandler.Save fails with EmptyID whenever the
identity is unset (the EmptyID check takes precedence), fails with
UnsavedEvents whenever the identity is set and the unsaved-event buffer is
non-empty, and in either failure case the snapshot store Save is never
invoked (no snapshot is persisted). -/
theorem snapshothandler_validation (storeSave : Snapshot → Except GoError Unit)
    (inp : SnapshotInput) (root : AggregateRoot) (hroot : rootOf inp = some root) :
    (root.aggregateID = "" →
      snapshotHandlerSave storeSave inp = (.error .emptyID, [])) ∧
    (root.aggregateID ≠ "" → root.unsaved = true →
      snapshotHandlerSave storeSave inp = (.error .unsavedEvents, [])) := by
  match inp with
  | .notAggregate => cases hroot
  | .snapshotAggregate r typ mres =>
    simp only [rootOf, Option.some.injEq] at hroot
    subst hroot
    constructor
    · intro hid
      simp only [snapshotHandlerSave, saveRootSnapshot, validate, if_pos hid]
    · intro hid hun
      simp only [snapshotHandlerSave, saveRootSnapshot, validate, if_neg hid,
        if_pos hun]
  | .aggregate r typ mres =>
    simp only [rootOf, Option.some.injEq] at hroot
    subst hroot
    constructor
    · intro hid
      simp only [snapshotHandlerSave, saveRootSnapshot, validate, if_pos hid]
    · intro hid hun
      simp only [snapshotHandlerSave, saveRootSnapshot, validate, if_neg hid,
        if_pos hun]

theorem snapshothandler_validation_witness :
    (exRoot.aggregateID = "" →
      snapshotHandlerSave (fun _ => .ok ()) (.aggregate exRoot "Person" (.ok "state"))
        = (.error .emptyID, [])) ∧
    (exRoot.aggregateID ≠ "" → exRoot.unsaved = true →
      snapshotHandlerSave (fun _ => .ok ()) (.aggregate exRoot "Person" (.ok "state"))
        = (.error .unsavedEvents, [])) :=
  snapshothandler_validation (fun _ => .ok ())
    (.aggregate exRoot "Person" (.ok "state")) exRoot (by rfl)

/-! ## Claim about Event.Reason (C10) -/

/-- C10 counterexample: when the Data type parameter is instantiated with a
non-pointer named type (the payload dynamic type is the struct Born rather
than a pointer to it), Event.Reason panics inside reflect Elem instead of
returning a value; the claim that Reason always returns without panicking
is false. -/
theorem reason_panics_on_nonpointer :
    goReason (.val (.named "Born"))
      = .error (.panicked "reflect: Elem of invalid type") ∧
    (Except.error (GoError.panicked "reflect: Elem of invalid type")
      : Except GoError String) ≠ .ok "Born" :=
  ⟨rfl, fun h => nomatch h⟩

/-- C10 (amended): Event.Reason returns the empty string when Data is the
nil interface, returns the element type name when Data is a pointer to a
named type, and panics in reflect Elem when the Data type parameter is
instantiated with a non-pointer named type. -/
theorem reason_cases (n : String) :
    goReason .interfaceNil = .ok "" ∧
    goReason (.val (.pointer (.named n))) = .ok n ∧
    goReason (.val (.named n))
      = .error (.panicked "reflect: Elem of invalid type") :=
  ⟨rfl, rfl, rfl⟩

end EvSrc
